import Mathlib

/-!
# Verification of the polymarket-lp quoting core

A shallow embedding of the pure quoting, risk and fill-accounting code of the
`polymarket-lp` market-making bot, with theorems settling the specification's
claims about it.

`rust_decimal::Decimal` values are modelled as exact rationals (`ℚ`): the money
path of the program is fixed-point decimal arithmetic throughout, and every
claim under study concerns exact-value behaviour.  `Decimal::round()` performs
round-half-to-even (banker's rounding), modelled by `roundHalfEven` below.
-/

namespace PolymarketLP

/-! ## Quoter (src/quoter.rs) -/

/-- A proposed quote with bid and ask prices for a single token side
(`Quote` in quoter.rs). -/
structure Quote where
  bid_price : ℚ
  ask_price : ℚ
  size : ℚ
  level : ℕ
  deriving DecidableEq, Repr

/-- Parameters needed to generate quotes (`QuoteParams` in quoter.rs). -/
structure QuoteParams where
  midpoint : ℚ
  base_offset_cents : ℚ
  min_offset_cents : ℚ
  tick_size : ℚ
  order_size : ℚ
  num_levels : ℕ
  fee_rate_bps : Option ℕ
  max_incentive_spread : Option ℚ
  min_incentive_size : Option ℚ
  inventory_skew : ℚ
  deriving DecidableEq, Repr

/-- `compute_offset` from quoter.rs: fee-aware one-sided offset.
`Decimal::new(fee_bps, 4)` is `fee_bps / 10^4`. -/
def compute_offset (params : QuoteParams) : ℚ :=
  let base_offset := params.base_offset_cents / 100
  let fee_offset :=
    match params.fee_rate_bps with
    | some fee_bps =>
        let fee_rate : ℚ := (fee_bps : ℚ) / 10000
        let p := params.midpoint
        let fee_at_mid := fee_rate * p * (1 - p)
        fee_at_mid / 2 + base_offset
    | none => base_offset
  let min_offset := params.min_offset_cents / 100
  max fee_offset min_offset

/-- `Decimal::round()`: round to the nearest integer, ties to even
(banker's rounding), as used by `align_to_tick`. -/
def roundHalfEven (x : ℚ) : ℤ :=
  if x - ⌊x⌋ < 1/2 then ⌊x⌋
  else if 1/2 < x - ⌊x⌋ then ⌊x⌋ + 1
  else if ⌊x⌋ % 2 = 0 then ⌊x⌋ else ⌊x⌋ + 1

/-- `align_to_tick` from quoter.rs: round a price to the nearest multiple of
the tick size; a zero tick returns the price unchanged. -/
def align_to_tick (price tick_size : ℚ) : ℚ :=
  if tick_size = 0 then price
  else (roundHalfEven (price / tick_size) : ℚ) * tick_size

/-- The body of the per-level loop of `generate_quotes` (quoter.rs): each
level 10% wider (`Decimal::new(level, 1)` is `level / 10`), inventory skew
widening one side and tightening the other, tick alignment, and the bound
checks that drop invalid levels. -/
def quote_at_level (params : QuoteParams) (level : ℕ) : Option Quote :=
  let base_offset := compute_offset params
  let level_offset := base_offset + base_offset * ((level : ℚ) / 10)
  let skew := params.inventory_skew
  let bid_offset := level_offset * (1 + skew)
  let ask_offset := level_offset * (1 - skew)
  let raw_bid := params.midpoint - bid_offset
  let raw_ask := params.midpoint + ask_offset
  let bid_price := align_to_tick raw_bid params.tick_size
  let ask_price := align_to_tick raw_ask params.tick_size
  if bid_price ≤ 0 ∨ 1 ≤ ask_price then none
  else if ask_price ≤ bid_price then none
  else some ⟨bid_price, ask_price, params.order_size, level⟩

/-- `generate_quotes` from quoter.rs: the loop over `0..num_levels`, keeping
the levels that pass the validity checks. -/
def generate_quotes (params : QuoteParams) : List Quote :=
  (List.range params.num_levels).filterMap (quote_at_level params)

/-- `estimate_score` from quoter.rs: quadratic incentive score.  The distance
cut-off is applied only when `max_spread` is given; when it is unset the
default `v = 0.05` is used with no cut-off. -/
def estimate_score (midpoint price size : ℚ)
    (max_spread min_size : Option ℚ) : ℚ :=
  let distance := |midpoint - price|
  let below_min : Bool :=
    match min_size with
    | some min_sz => decide (size < min_sz)
    | none => false
  if below_min then 0
  else
    match max_spread with
    | some spread =>
        if spread < distance then 0
        else if spread = 0 then 0
        else
          let ratio := (spread - distance) / spread
          ratio * ratio * size
    | none =>
        let v : ℚ := 5/100
        let ratio := (v - distance) / v
        ratio * ratio * size

/-! ## Risk (src/risk.rs) -/

/-- Inventory state for a single market (`MarketInventory` in risk.rs). -/
structure MarketInventory where
  yes_tokens : ℚ
  no_tokens : ℚ
  total_bought_value : ℚ
  total_sold_value : ℚ
  deriving DecidableEq, Repr

/-- `MarketInventory::net_position`: YES − NO. -/
def MarketInventory.net_position (inv : MarketInventory) : ℚ :=
  inv.yes_tokens - inv.no_tokens

/-- The strategy configuration fields the risk and quoting code reads
(`StrategyConfig` in config.rs). -/
structure StrategyConfig where
  base_offset_cents : ℚ
  min_offset_cents : ℚ
  requote_threshold_cents : ℚ
  order_size : ℚ
  num_levels : ℕ
  inventory_cap : ℚ
  deriving DecidableEq, Repr

/-- Risk decision for quoting on a specific side (`QuoteSideDecision` in
risk.rs). -/
inductive QuoteSideDecision where
  | Normal : QuoteSideDecision
  | Adjusted (offset_multiplier : ℚ) : QuoteSideDecision
  | Paused : QuoteSideDecision
  deriving DecidableEq, Repr

/-- `inventory_check` from risk.rs: per-side quoting decision from the ratio
of net position to the inventory cap. -/
def inventory_check (inventory : MarketInventory) (strategy : StrategyConfig) :
    QuoteSideDecision × QuoteSideDecision :=
  let net := inventory.net_position
  let cap := strategy.inventory_cap
  if cap = 0 then (.Normal, .Normal)
  else
    let ratio := net / cap
    if 1 ≤ ratio then
      (.Paused, .Adjusted (1/2))
    else if ratio ≤ -1 then
      (.Adjusted (1/2), .Paused)
    else if 1/2 < ratio then
      let multiplier := 1 + ratio
      (.Adjusted multiplier, .Adjusted (1 / multiplier))
    else if ratio < -(1/2) then
      let multiplier := 1 + |ratio|
      (.Adjusted (1 / multiplier), .Adjusted multiplier)
    else
      (.Normal, .Normal)

/-- `allocate_capital` from risk.rs: proportional allocation with a per-market
cap; equal split when the total score is zero; capped residual is not
redistributed. -/
def allocate_capital (market_scores : List (String × ℚ))
    (total_capital max_per_market : ℚ) : List (String × ℚ) :=
  if market_scores.isEmpty then []
  else
    let total_score := (market_scores.map (fun p => p.2)).sum
    if total_score = 0 then
      let per_market := min (total_capital / (market_scores.length : ℚ)) max_per_market
      market_scores.map (fun p => (p.1, per_market))
    else
      market_scores.map (fun p =>
        let fraction := p.2 / total_score
        (p.1, min (total_capital * fraction) max_per_market))

/-! ## Order tracking and fill accounting (src/orders.rs, src/engine.rs) -/

/-- Order side (`Side` from the exchange SDK, as used by the bot). -/
inductive Side where
  | Buy : Side
  | Sell : Side
  deriving DecidableEq, Repr

/-- `OrderStatus` from orders.rs. -/
inductive OrderStatus where
  | Open : OrderStatus
  | PartiallyFilled : OrderStatus
  | Filled : OrderStatus
  | Cancelled : OrderStatus
  deriving DecidableEq, Repr

/-- `TrackedOrder` from orders.rs: an order placed on the exchange. -/
structure TrackedOrder where
  order_id : String
  token_id : String
  side : Side
  price : ℚ
  size : ℚ
  filled : ℚ
  status : OrderStatus
  deriving DecidableEq, Repr

/-- One step of `reconcile_orders` from orders.rs on a single tracked order.
`resp` is the exchange's answer `(size_matched, original_size)` for this
order, `none` when the status fetch failed (which leaves the order
untouched).  Terminal orders are skipped.  Note the source assigns
`filled = size_matched` — the absolute matched quantity, not a delta. -/
def reconcile_one (order : TrackedOrder) (resp : Option (ℚ × ℚ)) : TrackedOrder :=
  if order.status = .Filled ∨ order.status = .Cancelled then order
  else
    match resp with
    | none => order
    | some (matched, orig_size) =>
        { order with
          filled := matched
          status :=
            if orig_size ≤ matched then .Filled
            else if 0 < matched then .PartiallyFilled
            else order.status }

/-- `reconcile_orders` from orders.rs over a tracked-order list, with `resps`
the per-order exchange responses in the same order. -/
def reconcile_orders (tracked : List TrackedOrder) (resps : List (Option (ℚ × ℚ))) :
    List TrackedOrder :=
  (tracked.zip resps).map (fun p => reconcile_one p.1 p.2)

/-- The inventory-bearing fields of `QuoteEngine` (engine.rs). -/
structure EngineInventory where
  inventory_yes : ℚ
  inventory_no : ℚ
  total_bought_value : ℚ
  total_sold_value : ℚ
  deriving DecidableEq, Repr

/-- The all-zero inventory a fresh engine starts with (`QuoteEngine::new`). -/
def EngineInventory.zero : EngineInventory :=
  ⟨0, 0, 0, 0⟩

/-- One iteration of the loop in `QuoteEngine::update_inventory_from_fills`
(engine.rs): apply one tracked order's `filled` quantity to the engine
inventory, keyed on side and on whether the order's token is the YES token. -/
def apply_fill (token_yes_id : String) (s : EngineInventory) (order : TrackedOrder) :
    EngineInventory :=
  if order.filled ≤ 0 then s
  else
    let is_yes := order.token_id = token_yes_id
    match order.side with
    | .Buy =>
        if is_yes then
          { s with
            inventory_yes := s.inventory_yes + order.filled
            total_bought_value := s.total_bought_value + order.filled * order.price }
        else
          { s with
            inventory_no := s.inventory_no + order.filled
            total_bought_value := s.total_bought_value + order.filled * order.price }
    | .Sell =>
        if is_yes then
          { s with
            inventory_yes := s.inventory_yes - order.filled
            total_sold_value := s.total_sold_value + order.filled * order.price }
        else
          { s with
            inventory_no := s.inventory_no - order.filled
            total_sold_value := s.total_sold_value + order.filled * order.price }

/-- `QuoteEngine::update_inventory_from_fills` (engine.rs): fold `apply_fill`
over every tracked order.  The source iterates over the whole tracked list and
adds each order's full `filled` value on every call. -/
def update_inventory_from_fills (token_yes_id : String) (s : EngineInventory)
    (tracked : List TrackedOrder) : EngineInventory :=
  tracked.foldl (apply_fill token_yes_id) s

/-- The reconcile-then-account prefix of `QuoteEngine::tick_live` (engine.rs):
`reconcile_orders` followed by `update_inventory_from_fills`, returning the
updated tracked list and inventory. -/
def tick_reconcile (token_yes_id : String) (s : EngineInventory)
    (tracked : List TrackedOrder) (resps : List (Option (ℚ × ℚ))) :
    List TrackedOrder × EngineInventory :=
  let tracked' := reconcile_orders tracked resps
  (tracked', update_inventory_from_fills token_yes_id s tracked')

/-! ## Portfolio controller (src/manager.rs) -/

/-- The per-engine state the controller's stale-market removal can see: the
engine's tracked orders (`QuoteEngine.tracked_orders`). -/
structure EngineStub where
  tracked_orders : List TrackedOrder
  deriving DecidableEq, Repr

/-- The ids of an engine's orders still in `Open` or `PartiallyFilled` state —
the orders `QuoteEngine::cancel_all` would cancel. -/
def EngineStub.open_order_ids (e : EngineStub) : List String :=
  (e.tracked_orders.filter
    (fun o => o.status = OrderStatus.Open ∨ o.status = OrderStatus.PartiallyFilled)).map
    (fun o => o.order_id)

/-- `MarketManager::remove_stale_markets` (manager.rs): drop every engine
whose condition id is not in `active_ids`.  The source's body only logs and
calls `engines.remove(id)`; no cancellation request is made for the removed
engines' orders anywhere in this function (nor elsewhere in `rescan`), so the
step's list of issued cancel order-ids — the second component — is empty. -/
def remove_stale_markets (engines : List (String × EngineStub))
    (active_ids : List String) : List (String × EngineStub) × List String :=
  (engines.filter (fun p => active_ids.contains p.1), [])

/-! ## Helper lemmas -/

/-- Banker's rounding is within half a unit of its argument. -/
lemma roundHalfEven_close (x : ℚ) : |(roundHalfEven x : ℚ) - x| ≤ 1/2 := by
  have h0 : (⌊x⌋ : ℚ) ≤ x := Int.floor_le x
  have h1 : x < ⌊x⌋ + 1 := Int.lt_floor_add_one x
  unfold roundHalfEven
  split_ifs with hr1 hr2 hpar <;> rw [abs_le] <;> constructor <;> push_cast <;> linarith

/-- Tick alignment moves a price by at most half a tick (non-negative tick). -/
lemma align_to_tick_close (price tick : ℚ) (ht : 0 ≤ tick) :
    |align_to_tick price tick - price| ≤ tick / 2 := by
  unfold align_to_tick
  split_ifs with h
  · simp [h]
  · have htpos : 0 < tick := lt_of_le_of_ne ht (Ne.symm h)
    have hkey : (roundHalfEven (price / tick) : ℚ) * tick - price =
        ((roundHalfEven (price / tick) : ℚ) - price / tick) * tick := by
      field_simp
    rw [hkey, abs_mul, abs_of_pos htpos]
    calc |(roundHalfEven (price / tick) : ℚ) - price / tick| * tick
        ≤ (1/2) * tick :=
          mul_le_mul_of_nonneg_right (roundHalfEven_close (price / tick)) htpos.le
      _ = tick / 2 := by ring

/-- For a non-zero tick, the aligned price is an integer multiple of the tick. -/
lemma align_to_tick_multiple (price tick : ℚ) (h : tick ≠ 0) :
    ∃ k : ℤ, align_to_tick price tick = k * tick :=
  ⟨roundHalfEven (price / tick), by simp [align_to_tick, h]⟩

/-- `compute_offset` is at least the configured minimum offset. -/
lemma min_offset_le_compute_offset (params : QuoteParams) :
    params.min_offset_cents / 100 ≤ compute_offset params := by
  simp only [compute_offset]
  exact le_max_right _ _

/-- Every quote returned by `generate_quotes` comes from some level, with
prices equal to the tick-aligned skewed offsets of that level and passing the
validity checks. -/
lemma generate_quotes_mem (params : QuoteParams) (q : Quote)
    (hq : q ∈ generate_quotes params) :
    0 < q.bid_price ∧ q.bid_price < q.ask_price ∧ q.ask_price < 1 ∧
    q.size = params.order_size ∧
    q.bid_price = align_to_tick
        (params.midpoint -
          (compute_offset params + compute_offset params * ((q.level : ℚ) / 10)) *
            (1 + params.inventory_skew)) params.tick_size ∧
    q.ask_price = align_to_tick
        (params.midpoint +
          (compute_offset params + compute_offset params * ((q.level : ℚ) / 10)) *
            (1 - params.inventory_skew)) params.tick_size := by
  rw [generate_quotes, List.mem_filterMap] at hq
  obtain ⟨level, -, hf⟩ := hq
  simp only [quote_at_level] at hf
  split_ifs at hf with h1 h2
  push_neg at h1 h2
  injection hf with hf
  subst hf
  exact ⟨h1.1, h2, h1.2, rfl, rfl, rfl⟩

/-! ## Claims -/

/-- C9: for every price `p ∈ [0, 1]` and tick `> 0`, `align_to_tick p tick`
is an integer multiple of the tick and differs from `p` by at most half a
tick (round-half-to-even), and a zero tick returns the price unchanged. -/
theorem c9_align_to_tick_correct (p tick : ℚ) (hp0 : 0 ≤ p) (hp1 : p ≤ 1)
    (ht : 0 < tick) :
    (∃ k : ℤ, align_to_tick p tick = k * tick) ∧
    |align_to_tick p tick - p| ≤ tick / 2 ∧
    align_to_tick p 0 = p :=
  ⟨align_to_tick_multiple p tick ht.ne', align_to_tick_close p tick ht.le,
   by simp [align_to_tick]⟩

/-- Witness for C9 at `p = 0.4567`, `tick = 0.01`. -/
theorem c9_align_to_tick_correct_witness :
    ((0:ℚ) ≤ 4567/10000 ∧ (4567/10000:ℚ) ≤ 1 ∧ (0:ℚ) < 1/100) ∧
    ((∃ k : ℤ, align_to_tick (4567/10000) (1/100) = k * (1/100)) ∧
     |align_to_tick (4567/10000) (1/100) - 4567/10000| ≤ (1/100) / 2 ∧
     align_to_tick (4567/10000) 0 = 4567/10000) :=
  ⟨⟨by norm_num, by norm_num, by norm_num⟩,
   c9_align_to_tick_correct (4567/10000) (1/100) (by norm_num) (by norm_num)
     (by norm_num)⟩

/-- C6: every quote returned by `generate_quotes` satisfies
`0 < bid < ask < 1`, and (for a non-zero tick) both prices are integer
multiples of the tick size; levels violating those checks are dropped. -/
theorem c6_quote_validity (params : QuoteParams) :
    ∀ q ∈ generate_quotes params,
      0 < q.bid_price ∧ q.bid_price < q.ask_price ∧ q.ask_price < 1 ∧
      (params.tick_size ≠ 0 →
        (∃ k : ℤ, q.bid_price = k * params.tick_size) ∧
        (∃ j : ℤ, q.ask_price = j * params.tick_size)) := by
  intro q hq
  obtain ⟨hb, hba, ha, -, hbid, hask⟩ := generate_quotes_mem params q hq
  refine ⟨hb, hba, ha, fun ht => ⟨?_, ?_⟩⟩
  · rw [hbid]; exact align_to_tick_multiple _ _ ht
  · rw [hask]; exact align_to_tick_multiple _ _ ht

/-- Witness for C6: the level-0 quote of the S1 scenario parameters. -/
theorem c6_quote_validity_witness :
    (⟨49/100, 51/100, 500, 0⟩ : Quote) ∈
      generate_quotes ⟨1/2, 1, 1/2, 1/100, 500, 2, none, none, none, 0⟩ ∧
    (0 < (49/100:ℚ) ∧ (49/100:ℚ) < 51/100 ∧ (51/100:ℚ) < 1 ∧
      ((1/100:ℚ) ≠ 0 →
        (∃ k : ℤ, (49/100:ℚ) = k * (1/100)) ∧
        (∃ j : ℤ, (51/100:ℚ) = j * (1/100)))) := by
  have hmem : (⟨49/100, 51/100, 500, 0⟩ : Quote) ∈
      generate_quotes ⟨1/2, 1, 1/2, 1/100, 500, 2, none, none, none, 0⟩ := by
    have hlist : generate_quotes ⟨1/2, 1, 1/2, 1/100, 500, 2, none, none, none, 0⟩ =
        [⟨49/100, 51/100, 500, 0⟩, ⟨49/100, 51/100, 500, 1⟩] := by
      norm_num [generate_quotes, quote_at_level, compute_offset, align_to_tick,
        roundHalfEven, List.range_succ, List.filterMap_cons]
    rw [hlist]
    exact List.mem_cons_self _ _
  exact ⟨hmem, c6_quote_validity _ _ hmem⟩

/-- C4 fails as stated: with skew `-1/2` (allowed range), the bid offset is
half the minimum offset, so the bid lands strictly above
`midpoint - min_offset`; and with zero skew, tick alignment can round the bid
up past `midpoint - min_offset`. -/
theorem c4_counterexample :
    generate_quotes ⟨1/2, 1, 1, 0, 500, 1, none, none, none, -(1/2)⟩ =
      [⟨99/200, 103/200, 500, 0⟩] ∧
    ¬ ((99:ℚ)/200 ≤ 1/2 - 1/100) ∧
    generate_quotes ⟨503/1000, 2/5, 2/5, 1/100, 500, 1, none, none, none, 0⟩ =
      [⟨1/2, 51/100, 500, 0⟩] ∧
    ¬ ((1:ℚ)/2 ≤ 503/1000 - 2/5/100) := by
  refine ⟨?_, by norm_num, ?_, by norm_num⟩ <;>
    norm_num [generate_quotes, quote_at_level, compute_offset, align_to_tick,
      roundHalfEven, List.range_succ, List.filterMap_cons]

/-- C4 (amended): for non-negative `min_offset_cents` and tick and skew in
`[-1/2, 1/2]`, every generated quote satisfies
`bid ≤ m - min_offset·(1+skew) + tick/2` and
`m + min_offset·(1-skew) - tick/2 ≤ ask`: the minimum-offset band holds up to
the skew factor on each side and half-tick rounding slack. -/
theorem c4_min_offset_bound (params : QuoteParams)
    (hmin : 0 ≤ params.min_offset_cents)
    (hlo : -(1/2) ≤ params.inventory_skew) (hhi : params.inventory_skew ≤ 1/2)
    (ht : 0 ≤ params.tick_size) :
    ∀ q ∈ generate_quotes params,
      q.bid_price ≤ params.midpoint
          - params.min_offset_cents / 100 * (1 + params.inventory_skew)
          + params.tick_size / 2 ∧
      params.midpoint + params.min_offset_cents / 100 * (1 - params.inventory_skew)
          - params.tick_size / 2 ≤ q.ask_price := by
  intro q hq
  obtain ⟨-, -, -, -, hbid, hask⟩ := generate_quotes_mem params q hq
  have hoff : params.min_offset_cents / 100 ≤ compute_offset params :=
    min_offset_le_compute_offset params
  have hoff0 : 0 ≤ compute_offset params :=
    le_trans (div_nonneg hmin (by norm_num)) hoff
  have hlvl : compute_offset params ≤
      compute_offset params + compute_offset params * ((q.level : ℚ) / 10) :=
    le_add_of_nonneg_right (mul_nonneg hoff0 (by positivity))
  set L := compute_offset params + compute_offset params * ((q.level : ℚ) / 10)
    with hL
  have hminL : params.min_offset_cents / 100 ≤ L := le_trans hoff hlvl
  have h1p : (0:ℚ) ≤ 1 + params.inventory_skew := by linarith
  have h1m : (0:ℚ) ≤ 1 - params.inventory_skew := by linarith
  have hbo : params.min_offset_cents / 100 * (1 + params.inventory_skew) ≤
      L * (1 + params.inventory_skew) := mul_le_mul_of_nonneg_right hminL h1p
  have hao : params.min_offset_cents / 100 * (1 - params.inventory_skew) ≤
      L * (1 - params.inventory_skew) := mul_le_mul_of_nonneg_right hminL h1m
  have hbclose := align_to_tick_close
    (params.midpoint - L * (1 + params.inventory_skew)) params.tick_size ht
  have haclose := align_to_tick_close
    (params.midpoint + L * (1 - params.inventory_skew)) params.tick_size ht
  rw [abs_le] at hbclose haclose
  constructor
  · rw [hbid]; linarith [hbclose.2]
  · rw [hask]; linarith [haclose.1]

/-- Witness for the amended C4 at the S1 scenario parameters. -/
theorem c4_min_offset_bound_witness :
    ((0:ℚ) ≤ 1/2 ∧ -(1/2) ≤ (0:ℚ) ∧ (0:ℚ) ≤ 1/2 ∧ (0:ℚ) ≤ 1/100) ∧
    (⟨49/100, 51/100, 500, 0⟩ : Quote) ∈
      generate_quotes ⟨1/2, 1, 1/2, 1/100, 500, 2, none, none, none, 0⟩ ∧
    ((49:ℚ)/100 ≤ 1/2 - (1/2)/100 * (1 + 0) + (1/100)/2 ∧
     (1:ℚ)/2 + (1/2)/100 * (1 - 0) - (1/100)/2 ≤ 51/100) := by
  have hmem : (⟨49/100, 51/100, 500, 0⟩ : Quote) ∈
      generate_quotes ⟨1/2, 1, 1/2, 1/100, 500, 2, none, none, none, 0⟩ := by
    have hlist : generate_quotes ⟨1/2, 1, 1/2, 1/100, 500, 2, none, none, none, 0⟩ =
        [⟨49/100, 51/100, 500, 0⟩, ⟨49/100, 51/100, 500, 1⟩] := by
      norm_num [generate_quotes, quote_at_level, compute_offset, align_to_tick,
        roundHalfEven, List.range_succ, List.filterMap_cons]
    rw [hlist]
    exact List.mem_cons_self _ _
  exact ⟨⟨by norm_num, by norm_num, by norm_num, by norm_num⟩, hmem,
    c4_min_offset_bound _ (by norm_num) (by norm_num) (by norm_num) (by norm_num)
      _ hmem⟩

/-- Evaluation of `estimate_score` when the size passes the minimum-size
check. -/
lemma estimate_score_of_min_size (m p size : ℚ) (max_spread min_size : Option ℚ)
    (h : ∀ s, min_size = some s → ¬ size < s) :
    estimate_score m p size max_spread min_size =
      (match max_spread with
      | some spread =>
          if spread < |m - p| then 0
          else if spread = 0 then 0
          else ((spread - |m - p|) / spread) * ((spread - |m - p|) / spread) * size
      | none =>
          ((5/100 - |m - p|) / (5/100)) * ((5/100 - |m - p|) / (5/100)) * size) := by
  cases min_size with
  | none => rfl
  | some s =>
      have hs := h s rfl
      cases max_spread <;> simp [estimate_score, decide_eq_false hs]

/-- C1 fails as stated: with `max_spread` unset and the distance `0.15`
beyond the default spread `0.05`, the score is `4·size`, not `0` and not
within `[0, size]`; with `max_spread = 0`, the score at the midpoint is `0`,
not `size`; and with a negative size (no min_size given) the score is
negative. -/
theorem c1_counterexample :
    estimate_score (1/2) (7/20) 1000 none none = 4000 ∧
    ¬ estimate_score (1/2) (7/20) 1000 none none ≤ 1000 ∧
    estimate_score (1/2) (1/2) 1000 (some 0) none = 0 ∧
    estimate_score (1/2) (49/100) (-10) (some (1/20)) none = -(32/5) := by
  refine ⟨?_, ?_, ?_, ?_⟩ <;>
    norm_num [estimate_score, abs_of_nonneg, abs_of_nonpos]

/-- C1 (amended): for a non-negative size meeting the minimum size when one
is given, and a **given, positive** `max_spread = v`: the score lies in
`[0, size]`, equals `size` exactly at the midpoint, and is `0` beyond the
spread `v`; when `max_spread` is unset the score still equals `size` at the
midpoint (but the distance cut-off of the original claim does not apply). -/
theorem c1_estimate_score_bounds (m p size v : ℚ) (min_size : Option ℚ)
    (hsize : 0 ≤ size)
    (hmin : ∀ s, min_size = some s → s ≤ size) :
    (0 < v →
      (0 ≤ estimate_score m p size (some v) min_size ∧
       estimate_score m p size (some v) min_size ≤ size) ∧
      (p = m → estimate_score m p size (some v) min_size = size) ∧
      (v < |m - p| → estimate_score m p size (some v) min_size = 0)) ∧
    (p = m → estimate_score m p size none min_size = size) := by
  have hpass : ∀ s, min_size = some s → ¬ size < s :=
    fun s hs => not_lt.mpr (hmin s hs)
  have hsome := estimate_score_of_min_size m p size (some v) min_size hpass
  have hnone := estimate_score_of_min_size m p size none min_size hpass
  constructor
  · intro hv
    rw [hsome]
    dsimp only
    by_cases hdist : v < |m - p|
    · rw [if_pos hdist]
      refine ⟨⟨le_refl 0, hsize⟩, ?_, fun _ => rfl⟩
      intro hpm
      have hdz : |m - p| = 0 := by rw [hpm, sub_self, abs_zero]
      exact absurd hdist (by rw [hdz]; exact not_lt.mpr hv.le)
    · push_neg at hdist
      rw [if_neg (not_lt.mpr hdist), if_neg hv.ne']
      have hd0 : (0:ℚ) ≤ |m - p| := abs_nonneg _
      have hr0 : 0 ≤ (v - |m - p|) / v := div_nonneg (by linarith) hv.le
      have hr1 : (v - |m - p|) / v ≤ 1 := (div_le_one hv).mpr (by linarith)
      refine ⟨⟨mul_nonneg (mul_nonneg hr0 hr0) hsize, ?_⟩, ?_, ?_⟩
      · have h1 : (v - |m - p|) / v * ((v - |m - p|) / v) ≤ 1 := by nlinarith
        calc (v - |m - p|) / v * ((v - |m - p|) / v) * size
            ≤ 1 * size := mul_le_mul_of_nonneg_right h1 hsize
          _ = size := one_mul size
      · intro hpm
        have hdz : |m - p| = 0 := by rw [hpm, sub_self, abs_zero]
        rw [hdz, sub_zero, div_self hv.ne']
        ring
      · intro h
        exact absurd h (not_lt.mpr hdist)
  · intro hpm
    rw [hnone]
    dsimp only
    have hdz : |m - p| = 0 := by rw [hpm, sub_self, abs_zero]
    rw [hdz, sub_zero, div_self (by norm_num : (5/100 : ℚ) ≠ 0)]
    ring

/-- Witness for the amended C1 at the S3 scenario input
(`m = 0.5`, `p = 0.49`, `size = 1000`, `max_spread = 0.05`). -/
theorem c1_estimate_score_bounds_witness :
    ((0:ℚ) ≤ 1000 ∧ (0:ℚ) < 1/20) ∧
    (0 ≤ estimate_score (1/2) (49/100) 1000 (some (1/20)) none ∧
     estimate_score (1/2) (49/100) 1000 (some (1/20)) none ≤ 1000) :=
  ⟨⟨by norm_num, by norm_num⟩,
   ((c1_estimate_score_bounds (1/2) (49/100) 1000 (1/20) none (by norm_num)
       (fun s hs => by cases hs)).1 (by norm_num)).1⟩

/-- C7: `inventory_check` follows the ratio table exactly: Normal/Normal for
a zero cap or `|ratio| ≤ 1/2`; Paused with a halved ask offset at
`ratio ≥ 1` (and symmetrically at `ratio ≤ -1`); reciprocal Adjusted
multipliers on the two ramps `1/2 < ratio < 1` and `-1 < ratio < -1/2`. -/
theorem c7_inventory_check_table (inv : MarketInventory) (strategy : StrategyConfig) :
    (strategy.inventory_cap = 0 →
      inventory_check inv strategy = (.Normal, .Normal)) ∧
    (strategy.inventory_cap ≠ 0 →
      (1 ≤ inv.net_position / strategy.inventory_cap →
        inventory_check inv strategy = (.Paused, .Adjusted (1/2))) ∧
      (inv.net_position / strategy.inventory_cap ≤ -1 →
        inventory_check inv strategy = (.Adjusted (1/2), .Paused)) ∧
      (1/2 < inv.net_position / strategy.inventory_cap →
        inv.net_position / strategy.inventory_cap < 1 →
        inventory_check inv strategy =
          (.Adjusted (1 + inv.net_position / strategy.inventory_cap),
           .Adjusted (1 / (1 + inv.net_position / strategy.inventory_cap)))) ∧
      (-1 < inv.net_position / strategy.inventory_cap →
        inv.net_position / strategy.inventory_cap < -(1/2) →
        inventory_check inv strategy =
          (.Adjusted (1 / (1 + |inv.net_position / strategy.inventory_cap|)),
           .Adjusted (1 + |inv.net_position / strategy.inventory_cap|))) ∧
      (|inv.net_position / strategy.inventory_cap| ≤ 1/2 →
        inventory_check inv strategy = (.Normal, .Normal))) := by
  constructor
  · intro h
    simp [inventory_check, h]
  · intro hcap
    refine ⟨?_, ?_, ?_, ?_, ?_⟩
    · intro h1
      simp only [inventory_check]
      rw [if_neg hcap, if_pos h1]
    · intro h1
      simp only [inventory_check]
      rw [if_neg hcap, if_neg (by linarith : ¬ (1:ℚ) ≤ inv.net_position / strategy.inventory_cap),
        if_pos h1]
    · intro h1 h2
      simp only [inventory_check]
      rw [if_neg hcap, if_neg (by linarith : ¬ (1:ℚ) ≤ inv.net_position / strategy.inventory_cap),
        if_neg (by linarith : ¬ inv.net_position / strategy.inventory_cap ≤ -1),
        if_pos h1]
    · intro h1 h2
      simp only [inventory_check]
      rw [if_neg hcap, if_neg (by linarith : ¬ (1:ℚ) ≤ inv.net_position / strategy.inventory_cap),
        if_neg (by linarith : ¬ inv.net_position / strategy.inventory_cap ≤ -1),
        if_neg (by linarith : ¬ (1:ℚ)/2 < inv.net_position / strategy.inventory_cap),
        if_pos h2]
    · intro habs
      obtain ⟨hlo, hhi⟩ := abs_le.mp habs
      simp only [inventory_check]
      rw [if_neg hcap, if_neg (by linarith : ¬ (1:ℚ) ≤ inv.net_position / strategy.inventory_cap),
        if_neg (by linarith : ¬ inv.net_position / strategy.inventory_cap ≤ -1),
        if_neg (by linarith : ¬ (1:ℚ)/2 < inv.net_position / strategy.inventory_cap),
        if_neg (by linarith : ¬ inv.net_position / strategy.inventory_cap < -(1/2))]

/-- Witness for C7: the S4 scenario (yes = 5000, no = 0, cap = 5000). -/
theorem c7_inventory_check_table_witness :
    inventory_check ⟨5000, 0, 0, 0⟩ ⟨1, 1/2, 1/2, 500, 2, 5000⟩ =
      (.Paused, .Adjusted (1/2)) := by
  have h1 : (1:ℚ) ≤ (⟨5000, 0, 0, 0⟩ : MarketInventory).net_position /
      (⟨1, 1/2, 1/2, 500, 2, 5000⟩ : StrategyConfig).inventory_cap := by
    norm_num [MarketInventory.net_position]
  exact ((c7_inventory_check_table ⟨5000, 0, 0, 0⟩
    ⟨1, 1/2, 1/2, 500, 2, 5000⟩).2 (by norm_num)).1 h1

/-- C10: whenever `inventory_check` adjusts both sides, the two multipliers
are exact reciprocals, the multiplier on the side that would grow the
position exceeds `1`, and the other lies strictly between `0` and `1`. -/
theorem c10_adjusted_multipliers_reciprocal (inv : MarketInventory)
    (strategy : StrategyConfig) (b a : ℚ)
    (h : inventory_check inv strategy = (.Adjusted b, .Adjusted a)) :
    b * a = 1 ∧
    (0 < inv.net_position / strategy.inventory_cap → 1 < b ∧ 0 < a ∧ a < 1) ∧
    (inv.net_position / strategy.inventory_cap < 0 → 1 < a ∧ 0 < b ∧ b < 1) := by
  by_cases hcap : strategy.inventory_cap = 0
  · rw [show inventory_check inv strategy = (.Normal, .Normal) by
      simp [inventory_check, hcap]] at h
    exact absurd h (by simp)
  · simp only [inventory_check, if_neg hcap] at h
    split_ifs at h with h1 h2 h3 h4
    · exact absurd h (by simp)
    · exact absurd h (by simp)
    · simp only [Prod.mk.injEq, QuoteSideDecision.Adjusted.injEq] at h
      obtain ⟨hb, ha⟩ := h
      subst hb
      subst ha
      push_neg at h1
      have hrpos : (0:ℚ) < 1 + inv.net_position / strategy.inventory_cap := by
        linarith
      refine ⟨mul_one_div_cancel hrpos.ne', fun _ => ?_, fun hneg => absurd hneg ?_⟩
      · exact ⟨by linarith, one_div_pos.mpr hrpos,
          by rw [div_lt_one hrpos]; linarith⟩
      · push_neg
        linarith
    · simp only [Prod.mk.injEq, QuoteSideDecision.Adjusted.injEq] at h
      obtain ⟨hb, ha⟩ := h
      subst hb
      subst ha
      push_neg at h1 h2 h3
      have habs : |inv.net_position / strategy.inventory_cap| =
          -(inv.net_position / strategy.inventory_cap) := abs_of_neg (by linarith)
      have hrpos : (0:ℚ) < 1 + |inv.net_position / strategy.inventory_cap| := by
        rw [habs]; linarith
      refine ⟨one_div_mul_cancel hrpos.ne', fun hpos => absurd hpos ?_, fun _ => ?_⟩
      · push_neg
        linarith
      · refine ⟨by rw [habs]; linarith, one_div_pos.mpr hrpos,
          by rw [div_lt_one hrpos]; rw [habs]; linarith⟩
    · exact absurd h (by simp)

/-- Witness for C10 at yes = 3500, no = 0, cap = 5000 (ratio `0.7`). -/
theorem c10_adjusted_multipliers_reciprocal_witness :
    inventory_check ⟨3500, 0, 0, 0⟩ ⟨1, 1/2, 1/2, 500, 2, 5000⟩ =
      (.Adjusted (17/10), .Adjusted (10/17)) ∧
    (17/10 : ℚ) * (10/17) = 1 := by
  have h : inventory_check ⟨3500, 0, 0, 0⟩ ⟨1, 1/2, 1/2, 500, 2, 5000⟩ =
      (.Adjusted (17/10), .Adjusted (10/17)) := by
    norm_num [inventory_check, MarketInventory.net_position]
  exact ⟨h, (c10_adjusted_multipliers_reciprocal _ _ _ _ h).1⟩

/-- The sum of a constant map is the length times the constant. -/
lemma sum_map_const_rat (l : List (String × ℚ)) (c : ℚ) :
    (l.map (fun _ => c)).sum = (l.length : ℚ) * c := by
  induction l with
  | nil => simp
  | cons x xs ih =>
      simp only [List.map_cons, List.sum_cons, List.length_cons, ih]
      push_cast
      ring

/-- `allocate_capital` in the all-scores-zero branch. -/
lemma allocate_capital_zero_case (scores : List (String × ℚ)) (total max_each : ℚ)
    (hne : scores ≠ []) (hz : (scores.map (fun p => p.2)).sum = 0) :
    allocate_capital scores total max_each =
      scores.map (fun p => (p.1, min (total / (scores.length : ℚ)) max_each)) := by
  simp [allocate_capital, List.isEmpty_iff, hne, hz]

/-- `allocate_capital` in the proportional branch. -/
lemma allocate_capital_prop_case (scores : List (String × ℚ)) (total max_each : ℚ)
    (hne : scores ≠ []) (hz : (scores.map (fun p => p.2)).sum ≠ 0) :
    allocate_capital scores total max_each =
      scores.map (fun p =>
        (p.1, min (total * (p.2 / (scores.map (fun q => q.2)).sum)) max_each)) := by
  simp [allocate_capital, List.isEmpty_iff, hne, hz]

/-- C8: for a non-empty score list with non-negative scores and positive
capital bounds, `allocate_capital` returns one allocation per market, their
sum is at most `total_capital`, none exceeds `max_per_market`, and the
per-market formula is the equal split `min(total/n, max)` when all scores are
zero and the capped proportional share `min(total·sᵢ/Σs, max)` otherwise. -/
theorem c8_allocate_capital_bounds (scores : List (String × ℚ)) (total max_each : ℚ)
    (hne : scores ≠ []) (hnn : ∀ p ∈ scores, 0 ≤ p.2)
    (htot : 0 < total) (hmax : 0 < max_each) :
    (allocate_capital scores total max_each).length = scores.length ∧
    ((allocate_capital scores total max_each).map (fun p => p.2)).sum ≤ total ∧
    (∀ p ∈ allocate_capital scores total max_each, p.2 ≤ max_each) ∧
    ((∀ p ∈ scores, p.2 = 0) →
      allocate_capital scores total max_each =
        scores.map (fun p => (p.1, min (total / (scores.length : ℚ)) max_each))) ∧
    ((scores.map (fun p => p.2)).sum ≠ 0 →
      allocate_capital scores total max_each =
        scores.map (fun p =>
          (p.1, min (total * (p.2 / (scores.map (fun q => q.2)).sum)) max_each))) := by
  have hlen : 0 < scores.length := List.length_pos.mpr hne
  have hlenQ : (0:ℚ) < (scores.length : ℚ) := by exact_mod_cast hlen
  by_cases hz : (scores.map (fun p => p.2)).sum = 0
  · have halloc := allocate_capital_zero_case scores total max_each hne hz
    refine ⟨by rw [halloc]; simp, ?_, ?_, fun _ => halloc, fun h => absurd hz h⟩
    · rw [halloc, List.map_map]
      have hcomp : ((fun p : String × ℚ => p.2) ∘
          (fun p : String × ℚ => (p.1, min (total / (scores.length : ℚ)) max_each))) =
          fun _ => min (total / (scores.length : ℚ)) max_each := rfl
      rw [hcomp, sum_map_const_rat]
      calc (scores.length : ℚ) * min (total / (scores.length : ℚ)) max_each
          ≤ (scores.length : ℚ) * (total / (scores.length : ℚ)) :=
            mul_le_mul_of_nonneg_left (min_le_left _ _) hlenQ.le
        _ = total := by field_simp
    · intro p hp
      rw [halloc] at hp
      obtain ⟨x, -, rfl⟩ := List.mem_map.mp hp
      exact min_le_right _ _
  · have halloc := allocate_capital_prop_case scores total max_each hne hz
    have hS0 : 0 ≤ (scores.map (fun p => p.2)).sum := by
      apply List.sum_nonneg
      intro x hx
      obtain ⟨p, hp, rfl⟩ := List.mem_map.mp hx
      exact hnn p hp
    have hSpos : 0 < (scores.map (fun p => p.2)).sum := lt_of_le_of_ne hS0 (Ne.symm hz)
    refine ⟨by rw [halloc]; simp, ?_, ?_, ?_, fun _ => halloc⟩
    · rw [halloc, List.map_map]
      have hcomp : ((fun p : String × ℚ => p.2) ∘
          (fun p : String × ℚ =>
            (p.1, min (total * (p.2 / (scores.map (fun q => q.2)).sum)) max_each))) =
          fun p : String × ℚ =>
            min (total * (p.2 / (scores.map (fun q => q.2)).sum)) max_each := rfl
      rw [hcomp]
      calc (scores.map (fun p : String × ℚ =>
              min (total * (p.2 / (scores.map (fun q => q.2)).sum)) max_each)).sum
          ≤ (scores.map (fun p : String × ℚ =>
              total / (scores.map (fun q => q.2)).sum * p.2)).sum := by
            apply List.sum_le_sum
            intro p hp
            calc min (total * (p.2 / (scores.map (fun q => q.2)).sum)) max_each
                ≤ total * (p.2 / (scores.map (fun q => q.2)).sum) := min_le_left _ _
              _ = total / (scores.map (fun q => q.2)).sum * p.2 := by ring
        _ = total / (scores.map (fun q => q.2)).sum *
              (scores.map (fun p : String × ℚ => p.2)).sum := List.sum_map_mul_left _ _ _
        _ = total := div_mul_cancel₀ total hz
    · intro p hp
      rw [halloc] at hp
      obtain ⟨x, -, rfl⟩ := List.mem_map.mp hp
      exact min_le_right _ _
    · intro hall
      exact absurd (by
        apply List.sum_eq_zero
        intro x hx
        obtain ⟨p, hp, rfl⟩ := List.mem_map.mp hx
        exact hall p hp) hz

/-- Witness for C8: the S6 scenario (scores 100/50/50, total 2000,
cap 1000). -/
theorem c8_allocate_capital_bounds_witness :
    ((allocate_capital [("a", 100), ("b", 50), ("c", 50)] 2000 1000).map
        (fun p => p.2)).sum ≤ 2000 ∧
    allocate_capital [("a", 100), ("b", 50), ("c", 50)] 2000 1000 =
      [("a", 1000), ("b", 500), ("c", 500)] := by
  have h := c8_allocate_capital_bounds [("a", 100), ("b", 50), ("c", 50)] 2000 1000
    (by simp) (by norm_num) (by norm_num) (by norm_num)
  refine ⟨h.2.1, ?_⟩
  rw [h.2.2.2.2 (by norm_num)]
  norm_num

/-- One `apply_fill` step never decreases the two value accumulators, given a
non-negative order price. -/
lemma apply_fill_values_mono (y : String) (s : EngineInventory) (o : TrackedOrder)
    (hp : 0 ≤ o.price) :
    s.total_bought_value ≤ (apply_fill y s o).total_bought_value ∧
    s.total_sold_value ≤ (apply_fill y s o).total_sold_value := by
  obtain ⟨oid, tid, side, price, size, filled, status⟩ := o
  simp only [apply_fill] at *
  by_cases hf : filled ≤ 0
  · rw [if_pos hf]
    exact ⟨le_refl _, le_refl _⟩
  · push_neg at hf
    have hfp : 0 ≤ filled * price := mul_nonneg hf.le hp
    rw [if_neg (not_le.mpr hf)]
    cases side <;> dsimp only <;> split_ifs <;>
      exact ⟨by dsimp only; linarith, by dsimp only; linarith⟩

/-- `update_inventory_from_fills` never decreases the value accumulators,
given non-negative order prices. -/
lemma update_values_mono (y : String) (orders : List TrackedOrder) :
    ∀ s : EngineInventory, (∀ o ∈ orders, 0 ≤ o.price) →
      s.total_bought_value ≤
        (update_inventory_from_fills y s orders).total_bought_value ∧
      s.total_sold_value ≤
        (update_inventory_from_fills y s orders).total_sold_value := by
  induction orders with
  | nil => exact fun s _ => ⟨le_refl _, le_refl _⟩
  | cons o rest ih =>
      intro s hall
      have h1 := apply_fill_values_mono y s o (hall o (List.mem_cons_self o rest))
      have h2 := ih (apply_fill y s o)
        (fun o' ho' => hall o' (List.mem_cons_of_mem o ho'))
      exact ⟨le_trans h1.1 h2.1, le_trans h1.2 h2.2⟩

/-- C5 fails as stated: from the zero inventory, a single sell fill drives
`inventory_yes` negative (sells subtract from token counts), and a fill at a
negative price drives `total_bought_value` below its starting value. -/
theorem c5_counterexample :
    (update_inventory_from_fills "Y" EngineInventory.zero
        [⟨"s1", "Y", .Sell, 1/2, 10, 10, .Filled⟩]).inventory_yes = -10 ∧
    ¬ (0:ℚ) ≤ -10 ∧
    (update_inventory_from_fills "Y" EngineInventory.zero
        [⟨"b1", "Y", .Buy, -1, 10, 10, .Filled⟩]).total_bought_value = -10 := by
  refine ⟨?_, by norm_num, ?_⟩ <;>
    norm_num [update_inventory_from_fills, apply_fill, EngineInventory.zero]

/-- C5 (amended): under fill-accounting updates with non-negative order
prices, `total_bought_value` and `total_sold_value` never decrease, and over
any sequence of update passes starting from the zero inventory they stay
non-negative.  (Token counts `inventory_yes`/`inventory_no` are *not*
non-negative in general: sells subtract from them.) -/
theorem c5_value_accumulators (y : String) :
    (∀ (s : EngineInventory) (orders : List TrackedOrder),
      (∀ o ∈ orders, 0 ≤ o.price) →
      s.total_bought_value ≤
        (update_inventory_from_fills y s orders).total_bought_value ∧
      s.total_sold_value ≤
        (update_inventory_from_fills y s orders).total_sold_value) ∧
    (∀ batches : List (List TrackedOrder),
      (∀ b ∈ batches, ∀ o ∈ b, 0 ≤ o.price) →
      0 ≤ (batches.foldl (update_inventory_from_fills y)
            EngineInventory.zero).total_bought_value ∧
      0 ≤ (batches.foldl (update_inventory_from_fills y)
            EngineInventory.zero).total_sold_value) := by
  refine ⟨fun s orders h => update_values_mono y orders s h, ?_⟩
  have aux : ∀ (batches : List (List TrackedOrder)) (s : EngineInventory),
      (∀ b ∈ batches, ∀ o ∈ b, 0 ≤ o.price) →
      s.total_bought_value ≤
        (batches.foldl (update_inventory_from_fills y) s).total_bought_value ∧
      s.total_sold_value ≤
        (batches.foldl (update_inventory_from_fills y) s).total_sold_value := by
    intro batches
    induction batches with
    | nil => exact fun s _ => ⟨le_refl _, le_refl _⟩
    | cons b rest ih =>
        intro s hall
        have h1 := update_values_mono y b s (hall b (List.mem_cons_self b rest))
        have h2 := ih (update_inventory_from_fills y s b)
          (fun b' hb' => hall b' (List.mem_cons_of_mem b hb'))
        exact ⟨le_trans h1.1 h2.1, le_trans h1.2 h2.2⟩
  intro batches h
  exact aux batches EngineInventory.zero h

/-- Witness for the amended C5: one buy fill of 10 tokens at price `1/2`. -/
theorem c5_value_accumulators_witness :
    EngineInventory.zero.total_bought_value ≤
      (update_inventory_from_fills "Y" EngineInventory.zero
        [⟨"b1", "Y", .Buy, 1/2, 10, 10, .Filled⟩]).total_bought_value ∧
    (update_inventory_from_fills "Y" EngineInventory.zero
        [⟨"b1", "Y", .Buy, 1/2, 10, 10, .Filled⟩]).total_bought_value = 5 := by
  constructor
  · refine ((c5_value_accumulators "Y").1 EngineInventory.zero _ ?_).1
    intro o ho
    rw [List.mem_singleton] at ho
    subst ho
    norm_num
  · norm_num [update_inventory_from_fills, apply_fill, EngineInventory.zero]

/-- C2 fails on the code: `reconcile_orders` stores the *absolute*
`size_matched` into `filled`, and `update_inventory_from_fills` re-applies
every order's full `filled` on every pass.  A first pass observing a complete
10-token buy fill at price `1/2` yields inventory `(yes=10, bought=5)` and
marks the order Filled; an identical second pass over the resulting state
re-counts the same fill, yielding `(yes=20, bought=10)` instead of leaving
the inventory unchanged. -/
theorem c2_double_count_fills :
    (tick_reconcile "Y" EngineInventory.zero
        [⟨"o1", "Y", .Buy, 1/2, 10, 0, .Open⟩] [some (10, 10)]).1 =
      [⟨"o1", "Y", .Buy, 1/2, 10, 10, .Filled⟩] ∧
    (tick_reconcile "Y" EngineInventory.zero
        [⟨"o1", "Y", .Buy, 1/2, 10, 0, .Open⟩] [some (10, 10)]).2 =
      ⟨10, 0, 5, 0⟩ ∧
    (tick_reconcile "Y" ⟨10, 0, 5, 0⟩
        [⟨"o1", "Y", .Buy, 1/2, 10, 10, .Filled⟩] [some (10, 10)]).2 =
      ⟨20, 0, 10, 0⟩ := by
  have hrec1 : reconcile_orders [⟨"o1", "Y", .Buy, 1/2, 10, 0, .Open⟩]
      [some (10, 10)] = [⟨"o1", "Y", .Buy, 1/2, 10, 10, .Filled⟩] := by
    simp [reconcile_orders, reconcile_one]
  have hrec2 : reconcile_orders [⟨"o1", "Y", .Buy, 1/2, 10, 10, .Filled⟩]
      [some (10, 10)] = [⟨"o1", "Y", .Buy, 1/2, 10, 10, .Filled⟩] := by
    simp [reconcile_orders, reconcile_one]
  have hupd : update_inventory_from_fills "Y" EngineInventory.zero
      [⟨"o1", "Y", .Buy, 1/2, 10, 10, .Filled⟩] = ⟨10, 0, 5, 0⟩ := by
    norm_num [update_inventory_from_fills, apply_fill, EngineInventory.zero]
  have hupd2 : update_inventory_from_fills "Y" (⟨10, 0, 5, 0⟩ : EngineInventory)
      [⟨"o1", "Y", .Buy, 1/2, 10, 10, .Filled⟩] = ⟨20, 0, 10, 0⟩ := by
    norm_num [update_inventory_from_fills, apply_fill]
  exact ⟨by simp only [tick_reconcile]; rw [hrec1],
    by simp only [tick_reconcile]; rw [hrec1, hupd],
    by simp only [tick_reconcile]; rw [hrec2, hupd2]⟩

/-- C3 fails on the code: `remove_stale_markets` drops an engine holding an
order still in the `Open` state from the engine map while issuing no cancel
request at all (the removal step's cancel list is empty), although the
engine's open-order set is non-empty. -/
theorem c3_remove_stale_without_cancel :
    remove_stale_markets [("m1", ⟨[⟨"o2", "Y", .Buy, 1/2, 10, 0, .Open⟩]⟩)] [] =
      ([], []) ∧
    EngineStub.open_order_ids ⟨[⟨"o2", "Y", .Buy, 1/2, 10, 0, .Open⟩]⟩ = ["o2"] := by
  constructor
  · simp [remove_stale_markets]
  · simp [EngineStub.open_order_ids]

end PolymarketLP
